import Mathlib

/-!
Verification of `lms/djangoapps/experiments/utils.py` (edx-platform).

The module's algorithmic core is `stable_bucketing_hash_group`, which buckets a
user into one of `group_count` groups via an MD5-based stable hash.  The other
functions embedded here are the program/enrollment helpers
(`get_program_price_and_skus`, `get_course_entitlement_price_and_sku`,
`get_unenrolled_courses`, `is_enrolled_in_all_courses`, `is_enrolled_in_course`,
`is_enrolled_in_course_run`).

Bytes are modelled as `Nat` (< 256), 32-bit machine words as `Nat` with explicit
`% 2 ^ 32`, Python `int` results as `Int`, Python's `%` operator as `Int.fmod`
(both are floor-division remainders, taking the divisor's sign), and the
`ZeroDivisionError` raised by `% 0` via `Except`.
-/

namespace Experiments

/-- UTF-8 encoding of a single Unicode code point, as a list of bytes
(the encoding performed by Python's `str.encode('utf-8')`, per code point). -/
def utf8EncodeChar (c : Nat) : List Nat :=
  if c < 0x80 then [c]
  else if c < 0x800 then
    [0xC0 ||| (c >>> 6), 0x80 ||| (c &&& 0x3F)]
  else if c < 0x10000 then
    [0xE0 ||| (c >>> 12), 0x80 ||| ((c >>> 6) &&& 0x3F), 0x80 ||| (c &&& 0x3F)]
  else
    [0xF0 ||| (c >>> 18), 0x80 ||| ((c >>> 12) &&& 0x3F),
     0x80 ||| ((c >>> 6) &&& 0x3F), 0x80 ||| (c &&& 0x3F)]

/-- UTF-8 encoding of a string: Python's `s.encode('utf-8')`. -/
def utf8Encode (s : String) : List Nat :=
  (s.data.map (fun c => utf8EncodeChar c.toNat)).flatten

/-! ### MD5 (the `hashlib.md5` primitive used by the source) -/

/-- The 64 MD5 round constants `K[i] = floor(2^32 * |sin(i + 1)|)`. -/
def md5K : Nat → Nat := fun i =>
  [0xd76aa478, 0xe8c7b756, 0x242070db, 0xc1bdceee,
   0xf57c0faf, 0x4787c62a, 0xa8304613, 0xfd469501,
   0x698098d8, 0x8b44f7af, 0xffff5bb1, 0x895cd7be,
   0x6b901122, 0xfd987193, 0xa679438e, 0x49b40821,
   0xf61e2562, 0xc040b340, 0x265e5a51, 0xe9b6c7aa,
   0xd62f105d, 0x02441453, 0xd8a1e681, 0xe7d3fbc8,
   0x21e1cde6, 0xc33707d6, 0xf4d50d87, 0x455a14ed,
   0xa9e3e905, 0xfcefa3f8, 0x676f02d9, 0x8d2a4c8a,
   0xfffa3942, 0x8771f681, 0x6d9d6122, 0xfde5380c,
   0xa4beea44, 0x4bdecfa9, 0xf6bb4b60, 0xbebfbc70,
   0x289b7ec6, 0xeaa127fa, 0xd4ef3085, 0x04881d05,
   0xd9d4d039, 0xe6db99e5, 0x1fa27cf8, 0xc4ac5665,
   0xf4292244, 0x432aff97, 0xab9423a7, 0xfc93a039,
   0x655b59c3, 0x8f0ccc92, 0xffeff47d, 0x85845dd1,
   0x6fa87e4f, 0xfe2ce6e0, 0xa3014314, 0x4e0811a1,
   0xf7537e82, 0xbd3af235, 0x2ad7d2bb, 0xeb86d391].getD i 0

/-- The 64 MD5 per-round left-rotation amounts. -/
def md5S : Nat → Nat := fun i =>
  [7, 12, 17, 22, 7, 12, 17, 22, 7, 12, 17, 22, 7, 12, 17, 22,
   5, 9, 14, 20, 5, 9, 14, 20, 5, 9, 14, 20, 5, 9, 14, 20,
   4, 11, 16, 23, 4, 11, 16, 23, 4, 11, 16, 23, 4, 11, 16, 23,
   6, 10, 15, 21, 6, 10, 15, 21, 6, 10, 15, 21, 6, 10, 15, 21].getD i 0

/-- 32-bit left rotation on `Nat` words (assumes `0 < n < 32`). -/
def rotl32 (x n : Nat) : Nat :=
  ((x <<< n) ||| (x >>> (32 - n))) % 2 ^ 32

/-- Bitwise complement on a 32-bit word. -/
def not32 (x : Nat) : Nat := x ^^^ 0xffffffff

/-- One MD5 round: `M` maps a word index `0..15` to the chunk's 32-bit word,
`st = (a, b, c, d)` is the working state, `i` the round number `0..63`. -/
def md5Round (M : Nat → Nat) (st : Nat × Nat × Nat × Nat) (i : Nat) :
    Nat × Nat × Nat × Nat :=
  let (a, b, c, d) := st
  let f :=
    if i < 16 then (b &&& c) ||| (not32 b &&& d)
    else if i < 32 then (d &&& b) ||| (not32 d &&& c)
    else if i < 48 then b ^^^ c ^^^ d
    else c ^^^ (b ||| not32 d)
  let g :=
    if i < 16 then i
    else if i < 32 then (5 * i + 1) % 16
    else if i < 48 then (3 * i + 5) % 16
    else (7 * i) % 16
  let sum := (f + a + md5K i + M g) % 2 ^ 32
  (d, (b + rotl32 sum (md5S i)) % 2 ^ 32, b, c)

/-- Process one 512-bit chunk, updating the four 32-bit state words. -/
def md5ProcessChunk (M : Nat → Nat) (st : Nat × Nat × Nat × Nat) :
    Nat × Nat × Nat × Nat :=
  let (a0, b0, c0, d0) := st
  let (a, b, c, d) := (List.range 64).foldl (md5Round M) st
  ((a0 + a) % 2 ^ 32, (b0 + b) % 2 ^ 32, (c0 + c) % 2 ^ 32, (d0 + d) % 2 ^ 32)

/-- The little-endian 32-bit word of `bytes` starting at position `p`. -/
def wordAt (bytes : List Nat) (p : Nat) : Nat :=
  bytes.getD p 0 + 2 ^ 8 * bytes.getD (p + 1) 0 +
    2 ^ 16 * bytes.getD (p + 2) 0 + 2 ^ 24 * bytes.getD (p + 3) 0

/-- The four little-endian bytes of a 32-bit word. -/
def toLE4 (x : Nat) : List Nat :=
  [x % 2 ^ 8, x / 2 ^ 8 % 2 ^ 8, x / 2 ^ 16 % 2 ^ 8, x / 2 ^ 24 % 2 ^ 8]

/-- MD5 padding: append `0x80`, zero bytes up to 56 mod 64, then the original
bit length as a 64-bit little-endian quantity. -/
def md5Pad (msg : List Nat) : List Nat :=
  let L := msg.length
  let lenBits := (8 * L) % 2 ^ 64
  msg ++ 0x80 :: List.replicate ((119 - L % 64) % 64) 0 ++
    [lenBits % 2 ^ 8, lenBits / 2 ^ 8 % 2 ^ 8, lenBits / 2 ^ 16 % 2 ^ 8,
     lenBits / 2 ^ 24 % 2 ^ 8, lenBits / 2 ^ 32 % 2 ^ 8, lenBits / 2 ^ 40 % 2 ^ 8,
     lenBits / 2 ^ 48 % 2 ^ 8, lenBits / 2 ^ 56 % 2 ^ 8]

/-- The 16-byte MD5 digest of a byte sequence (RFC 1321). -/
def md5 (msg : List Nat) : List Nat :=
  let padded := md5Pad msg
  let (a, b, c, d) :=
    (List.range (padded.length / 64)).foldl
      (fun st i => md5ProcessChunk (fun j => wordAt padded (64 * i + 4 * j)) st)
      (0x67452301, 0xefcdab89, 0x98badcfe, 0x10325476)
  toLE4 a ++ toLE4 b ++ toLE4 c ++ toLE4 d

/-- The lowercase hexadecimal character for a nibble value `0..15`. -/
def hexChar (n : Nat) : Char :=
  Char.ofNat (if n < 10 then 48 + n else 87 + n)

/-- The two hex characters of each byte, high nibble first: the characters of
Python's `hasher.hexdigest()`. -/
def hexChars (bytes : List Nat) : List Char :=
  (bytes.map (fun b => [hexChar (b / 16), hexChar (b % 16)])).flatten

/-- The characters of `hashlib.md5(data).hexdigest()`. -/
def md5Hexdigest (msg : List Nat) : List Char := hexChars (md5 msg)

/-! ### `stable_bucketing_hash_group` (utils.py lines 328-345) -/

/-- The character substitution performed by `re.sub('[0-7]', '0', s)`:
every character in the class `[0-7]` becomes `'0'`, all others are kept. -/
def sub07 (c : Char) : Char :=
  if '0' ≤ c ∧ c ≤ '7' then '0' else c

/-- The character substitution performed by `re.sub('[8-9a-f]', '1', s)`:
every character in the class `[8-9a-f]` becomes `'1'`, all others are kept. -/
def sub8f (c : Char) : Char :=
  if ('8' ≤ c ∧ c ≤ '9') ∨ ('a' ≤ c ∧ c ≤ 'f') then '1' else c

/-- Python's `int(s, 2)` on a string of `'0'`/`'1'` characters. -/
def binToNat (s : List Char) : Nat :=
  s.foldl (fun acc c => 2 * acc + (c.toNat - 48)) 0

/-- Python's `%` on integers (floor-division remainder, sign of the divisor);
`% 0` raises `ZeroDivisionError`. -/
def pyMod (a b : Int) : Except String Int :=
  if b = 0 then .error "ZeroDivisionError: integer modulo by zero"
  else .ok (Int.fmod a b)

/-- The source's `stable_bucketing_hash_group(group_name, group_count, username)`
(utils.py lines 328-345): MD5 of the UTF-8 bytes of `group_name` followed by
those of `username`, hexdigest, `re.sub('[0-7]', '0', _)`,
`re.sub('[8-9a-f]', '1', _)`, `int(_, 2)`, then `% group_count`. -/
def stable_bucketing_hash_group (group_name : String) (group_count : Int)
    (username : String) : Except String Int :=
  let hash_str := md5Hexdigest (utf8Encode group_name ++ utf8Encode username)
  pyMod (binToNat ((hash_str.map sub07).map sub8f)) group_count

/-! ### Reference computation from the spec, for comparison with the source -/

/-- The spec's character transform, stated per character: each character in the
range `0`-`7` becomes `'0'`; each character in the range `8`-`9` or `a`-`f`
becomes `'1'`. -/
def specTransformChar (c : Char) : Char :=
  if '0' ≤ c ∧ c ≤ '7' then '0'
  else if ('8' ≤ c ∧ c ≤ '9') ∨ ('a' ≤ c ∧ c ≤ 'f') then '1'
  else c

/-- The reference computation of the spec (`assign_bucket` in §4.1): MD5 digest
of the UTF-8 bytes of the name followed by those of the username, rendered as 32
lowercase hex characters, transformed character-by-character, parsed as a base-2
integer, reduced modulo `bucket_count`. -/
def assign_bucket (experiment_name username : String) (bucket_count : Int) : Int :=
  let digest := md5 (utf8Encode experiment_name ++ utf8Encode username)
  let bin := (hexChars digest).map specTransformChar
  (binToNat bin : Int) % bucket_count

/-- The 32 nibbles of a 16-byte digest, most-significant nibble of each byte
first (the order in which the hex rendering lists them). -/
def nibbles (bytes : List Nat) : List Nat :=
  (bytes.map (fun b => [b / 16, b % 16])).flatten

/-- The integer whose binary digits are the most-significant bit of each nibble
of the digest, most-significant nibble first. -/
def nibbleTopBits (bytes : List Nat) : Nat :=
  (nibbles bytes).foldl (fun acc v => 2 * acc + v / 8) 0

/-! ### Course / enrollment / pricing data model (utils.py lines 102-205)

Courses, course runs, seats and entitlements are dictionaries built from the
catalog service's JSON.  Required-subscript fields (`entitlement['price']`,
`run['status']`, ...) are modelled as structure fields; `dict.get` fields are
`Option`s.  Decimal prices are modelled as `Rat` (exact decimal arithmetic;
Python truthiness of a price is `≠ 0`, of a sku string `≠ ""`).  Datetimes are
modelled as `Nat` instants; course keys as an arbitrary type `κ`, with
`CourseKey.from_string` (an external collaborator) passed in as a function
returning `none` exactly when it raises `InvalidKeyError`. -/

/-- An entitlement dictionary: `mode`/`expires` read with `.get`, `price` and
`sku` with required subscripts. -/
structure Entitlement where
  mode : Option String
  price : Rat
  sku : String
  expires : Option Nat

/-- A seat dictionary of a course run. -/
structure Seat where
  type : Option String
  price : Rat
  sku : String

/-- A course-run dictionary: `key` is read with `.get` in
`is_enrolled_in_course_run`; `status` and `seats` with required subscripts in
`get_course_entitlement_price_and_sku`. -/
structure CourseRun where
  key : Option String
  status : String
  seats : List Seat

/-- A course dictionary: `course.get('entitlements', [])` and
`course.get('course_runs')`. -/
structure Course where
  entitlements : List Entitlement
  course_runs : Option (List CourseRun)

/-- An enrollment row; only its `course_id` is consulted here. -/
structure Enrollment (κ : Type) where
  course_id : κ

/-- `is_enrolled_in_course_run(course_run, enrollment_course_ids)` (lines
192-205): parse `course_run.get('key')`; on `InvalidKeyError` (modelled by
`fromString _ = none`) log and return `False`, otherwise test membership. -/
def is_enrolled_in_course_run {κ : Type} [BEq κ]
    (fromString : Option String → Option κ) (course_run : CourseRun)
    (enrollment_course_ids : List κ) : Bool :=
  match fromString course_run.key with
  | some course_run_key => enrollment_course_ids.contains course_run_key
  | none => false

/-- `is_enrolled_in_course(course, enrollment_course_ids)` (lines 180-189):
`course.get('course_runs')` must be present and non-empty (Python truthiness),
and some run must be enrolled. -/
def is_enrolled_in_course {κ : Type} [BEq κ]
    (fromString : Option String → Option κ) (course : Course)
    (enrollment_course_ids : List κ) : Bool :=
  match course.course_runs with
  | some course_runs =>
      course_runs.any (fun run =>
        is_enrolled_in_course_run fromString run enrollment_course_ids)
  | none => false

/-- `get_unenrolled_courses(courses, user_enrollments)` (lines 148-162). -/
def get_unenrolled_courses {κ : Type} [BEq κ]
    (fromString : Option String → Option κ) (courses : List Course)
    (user_enrollments : List (Enrollment κ)) : List Course :=
  let enrollment_course_ids := user_enrollments.map (fun e => e.course_id)
  courses.filter (fun course =>
    !(is_enrolled_in_course fromString course enrollment_course_ids))

/-- `is_enrolled_in_all_courses(courses, user_enrollments)` (lines 165-177). -/
def is_enrolled_in_all_courses {κ : Type} [BEq κ]
    (fromString : Option String → Option κ) (courses : List Course)
    (user_enrollments : List (Enrollment κ)) : Bool :=
  let enrollment_course_ids := user_enrollments.map (fun e => e.course_id)
  courses.all (fun course =>
    is_enrolled_in_course fromString course enrollment_course_ids)

/-- The entitlement guard of lines 132-134: verified mode, truthy price and
sku, and not expired (`not expires or expires > now()`). -/
def entitlementOk (now : Nat) (e : Entitlement) : Bool :=
  e.mode == some "verified" && !(e.price == 0) && !(e.sku == "") &&
    (match e.expires with
     | none => true
     | some t => decide (now < t))

/-- The seat guard of line 141: verified type, truthy price and sku. -/
def seatOk (s : Seat) : Bool :=
  s.type == some "verified" && !(s.price == 0) && !(s.sku == "")

/-- `get_course_entitlement_price_and_sku(course)` (lines 125-145): the first
acceptable verified entitlement, else the first acceptable verified seat of a
published course run, else `(None, None)` (modelled as `none`; the source never
returns a price without a sku from this helper).  `now` is the sampled clock. -/
def get_course_entitlement_price_and_sku (now : Nat) (course : Course) :
    Option (Rat × String) :=
  match course.entitlements.find? (entitlementOk now) with
  | some e => some (e.price, e.sku)
  | none =>
    let published_course_runs :=
      (course.course_runs.getD []).filter (fun run => run.status == "published")
    match ((published_course_runs.map (fun run => run.seats)).flatten).find? seatOk with
    | some seat => some (seat.price, seat.sku)
    | none => none

/-- The body of the loop of lines 109-113: when the course yields both a price
and a sku, add the price to the running total and append the sku. -/
def priceStep (now : Nat) (acc : Rat × List String) (course : Course) :
    Rat × List String :=
  match get_course_entitlement_price_and_sku now course with
  | some (course_price, course_sku) =>
      (acc.1 + course_price, acc.2 ++ [course_sku])
  | none => acc

/-- The source's `get_program_price_and_skus(courses)` (lines 102-122):
accumulate the prices and skus of the courses that yield both, then either
`(None, None)` when the total is not positive, or the formatted total and the
sku list.  `format_course_price` is an external collaborator passed in as
`format`. -/
def get_program_price_and_skus (format : Rat → String) (now : Nat)
    (courses : List Course) : Option String × Option (List String) :=
  let r := courses.foldl (priceStep now) ((0 : Rat), ([] : List String))
  if r.1 ≤ 0 then (none, none)
  else (some (format r.1), some r.2)

/-- The price contributed by one course to the program total: the course's
entitlement price when it yields a `(price, sku)` pair, and `0` otherwise. -/
def contribPrice (now : Nat) (course : Course) : Rat :=
  match get_course_entitlement_price_and_sku now course with
  | some (p, _) => p
  | none => 0

/-! ### Helper lemmas -/

/-- Applying the two regex substitutions in the source's order agrees with the
spec's single per-character transform, on every character. -/
theorem sub_chain_eq (c : Char) : sub8f (sub07 c) = specTransformChar c := by
  unfold sub07 sub8f specTransformChar
  by_cases h1 : '0' ≤ c ∧ c ≤ '7'
  · rw [if_pos h1, if_pos h1, if_neg (by decide)]
  · rw [if_neg h1, if_neg h1]

/-- For `b < 0`, `Int.fmod` of a natural number lands in `(b, 0]`
(Python's wrap-around for a negative modulus). -/
theorem fmod_neg_bounds (m : Nat) {b : Int} (hb : b < 0) :
    b < Int.fmod m b ∧ Int.fmod m b ≤ 0 := by
  obtain ⟨n, rfl⟩ : ∃ n, b = Int.negSucc n := by
    cases b with
    | ofNat k => exact absurd hb (by exact Int.not_lt.mpr (Int.ofNat_nonneg k))
    | negSucc n => exact ⟨n, rfl⟩
  cases m with
  | zero =>
    simp only [Int.ofNat_zero, Int.zero_fmod]
    omega
  | succ m =>
    have e : Int.fmod (Int.ofNat (m + 1)) (Int.negSucc n) =
        Int.subNatNat (m % (n + 1)) n := rfl
    rw [Int.subNatNat_eq_coe] at e
    have h1 : m % (n + 1) ≤ n := Nat.lt_succ_iff.mp (Nat.mod_lt _ (Nat.succ_pos n))
    constructor
    · show Int.negSucc n < Int.fmod (Int.ofNat (m + 1)) (Int.negSucc n)
      rw [e, Int.negSucc_eq]
      omega
    · show Int.fmod (Int.ofNat (m + 1)) (Int.negSucc n) ≤ 0
      rw [e]
      omega

end Experiments

namespace Experiments

/-! ### Claims about `stable_bucketing_hash_group` -/

set_option maxRecDepth 100000

/-- C1: for every `group_name`, `username` and `bucket_count ≥ 1`,
`stable_bucketing_hash_group` returns exactly the spec's reference computation
`assign_bucket`: MD5 of the UTF-8 concatenation, lowercase hex rendering,
per-character threshold transform, base-2 parse, modulo `bucket_count`. -/
theorem stable_bucketing_matches_reference (group_name username : String)
    (bucket_count : Int) (h : 1 ≤ bucket_count) :
    stable_bucketing_hash_group group_name bucket_count username =
      Except.ok (assign_bucket group_name username bucket_count) := by
  have hmap : ∀ l : List Char, (l.map sub07).map sub8f = l.map specTransformChar := by
    intro l
    rw [List.map_map]
    exact List.map_congr_left (fun c _ => sub_chain_eq c)
  simp only [stable_bucketing_hash_group, assign_bucket, pyMod]
  rw [if_neg (by omega), hmap, Int.fmod_eq_emod _ (by omega)]
  rfl

/-- Witness for C1 at `group_name = "exp1"`, `username = "alice"`,
`bucket_count = 10`. -/
theorem stable_bucketing_matches_reference_witness :
    (1 : Int) ≤ 10 ∧
      stable_bucketing_hash_group "exp1" 10 "alice" =
        Except.ok (assign_bucket "exp1" "alice" 10) :=
  ⟨by decide, stable_bucketing_matches_reference "exp1" "alice" 10 (by decide)⟩

/-- C2: the bucketing function is deterministic — two calls on the same
arguments (in any call order, with no hidden state in the model) always yield
the same result. -/
theorem stable_bucketing_deterministic (group_name username : String)
    (bucket_count : Int) (r₁ r₂ : Except String Int)
    (h₁ : stable_bucketing_hash_group group_name bucket_count username = r₁)
    (h₂ : stable_bucketing_hash_group group_name bucket_count username = r₂) :
    r₁ = r₂ := h₁ ▸ h₂ ▸ rfl

/-- Witness for C2 at `("exp1", 10, "alice")`, whose bucket is `9`. -/
theorem stable_bucketing_deterministic_witness :
    (Except.ok 9 : Except String Int) = Except.ok 9 :=
  stable_bucketing_deterministic "exp1" "alice" 10 (Except.ok 9) (Except.ok 9)
    (by rfl) (by rfl)

/-- C3: for every `bucket_count ≥ 1` the function returns a bucket index `r`
with `0 ≤ r < bucket_count`. -/
theorem stable_bucketing_range (group_name username : String)
    (bucket_count : Int) (h : 1 ≤ bucket_count) :
    ∃ r, stable_bucketing_hash_group group_name bucket_count username =
        Except.ok r ∧ 0 ≤ r ∧ r < bucket_count := by
  unfold stable_bucketing_hash_group pyMod
  rw [if_neg (by omega)]
  exact ⟨_, rfl, Int.fmod_nonneg' _ (by omega), Int.fmod_lt_of_pos _ (by omega)⟩

/-- Witness for C3 at `("exp1", 10, "alice")`. -/
theorem stable_bucketing_range_witness :
    (1 : Int) ≤ 10 ∧
      ∃ r, stable_bucketing_hash_group "exp1" 10 "alice" = Except.ok r ∧
        0 ≤ r ∧ r < 10 :=
  ⟨by decide, stable_bucketing_range "exp1" "alice" 10 (by decide)⟩

/-- C6: with a single bucket (`bucket_count = 1`) the function always returns
bucket `0`. -/
theorem stable_bucketing_one_bucket (group_name username : String) :
    stable_bucketing_hash_group group_name 1 username = Except.ok 0 := by
  unfold stable_bucketing_hash_group pyMod
  rw [if_neg one_ne_zero, Int.fmod_one]

/-- C8: the bucket depends only on the concatenated UTF-8 bytes of
`group_name` and `username` — pairs with equal concatenations (no separator is
inserted) get the same bucket for every `bucket_count ≥ 1`. -/
theorem stable_bucketing_concat_only (g₁ u₁ g₂ u₂ : String) (bucket_count : Int)
    (hn : 1 ≤ bucket_count)
    (h : utf8Encode g₁ ++ utf8Encode u₁ = utf8Encode g₂ ++ utf8Encode u₂) :
    stable_bucketing_hash_group g₁ bucket_count u₁ =
      stable_bucketing_hash_group g₂ bucket_count u₂ := by
  unfold stable_bucketing_hash_group
  rw [h]

/-- Witness for C8 at the colliding pairs `("ab", "c")` and `("a", "bc")` with
two buckets. -/
theorem stable_bucketing_concat_only_witness :
    (1 : Int) ≤ 2 ∧
      utf8Encode "ab" ++ utf8Encode "c" = utf8Encode "a" ++ utf8Encode "bc" ∧
      stable_bucketing_hash_group "ab" 2 "c" =
        stable_bucketing_hash_group "a" 2 "bc" :=
  ⟨by decide, by decide,
    stable_bucketing_concat_only "ab" "c" "a" "bc" 2 (by decide) (by decide)⟩

/-- C5 counterexample: with `bucket_count = -2` (which is `≤ 0`) the source
does not fail fast — it returns the integer `-1`.  (MD5 of the empty input
gives an odd transformed value; Python's `%` with a negative modulus wraps it
to `-1`.) -/
theorem stable_bucketing_negative_count_counterexample :
    stable_bucketing_hash_group "" (-2) "" = Except.ok (-1) := by rfl

/-- C5 (amended): with `bucket_count = 0` the call raises `ZeroDivisionError`
and never returns an integer; but with `bucket_count < 0` it does not fail —
it silently returns a wrapped-around value in `(bucket_count, 0]`. -/
theorem stable_bucketing_nonpositive_count (group_name username : String)
    (bucket_count : Int) (h : bucket_count ≤ 0) :
    (bucket_count = 0 →
      stable_bucketing_hash_group group_name bucket_count username =
        Except.error "ZeroDivisionError: integer modulo by zero") ∧
    (bucket_count < 0 →
      ∃ r, stable_bucketing_hash_group group_name bucket_count username =
          Except.ok r ∧ bucket_count < r ∧ r ≤ 0) := by
  constructor
  · intro h0
    subst h0
    simp [stable_bucketing_hash_group, pyMod]
  · intro hneg
    simp only [stable_bucketing_hash_group, pyMod]
    rw [if_neg (by omega)]
    exact ⟨_, rfl, (fmod_neg_bounds _ hneg).1, (fmod_neg_bounds _ hneg).2⟩

/-- Witness for the amended C5 at `("", -2, "")`. -/
theorem stable_bucketing_nonpositive_count_witness :
    ((-2 : Int) ≤ 0) ∧ ((-2 : Int) < 0) ∧
      ∃ r, stable_bucketing_hash_group "" (-2) "" = Except.ok r ∧
        (-2 : Int) < r ∧ r ≤ 0 :=
  ⟨by decide, by decide,
    (stable_bucketing_nonpositive_count "" "" (-2) (by decide)).2 (by decide)⟩

/-! ### C4: the hex-threshold recipe extracts the top bit of each nibble -/

/-- On every nibble value, the thresholded-at-8 hex character, read back as a
binary digit, is the nibble's most-significant bit. -/
theorem hexVal_topBit : ∀ v < 16, (sub8f (sub07 (hexChar v))).toNat - 48 = v / 8 := by
  decide

/-- `hexChars` on a cons expands to the two hex characters of the byte. -/
theorem hexChars_cons (b : Nat) (bs : List Nat) :
    hexChars (b :: bs) = hexChar (b / 16) :: hexChar (b % 16) :: hexChars bs := rfl

/-- `nibbles` on a cons expands to the two nibbles of the byte. -/
theorem nibbles_cons (b : Nat) (bs : List Nat) :
    nibbles (b :: bs) = b / 16 :: b % 16 :: nibbles bs := rfl

/-- Folding the base-2 parse over the transformed hex rendering computes the
same accumulator as folding top-bit extraction over the nibbles. -/
theorem transform_fold (bytes : List Nat) (hb : ∀ b ∈ bytes, b < 256) :
    ∀ acc : Nat,
      (((hexChars bytes).map sub07).map sub8f).foldl
          (fun a c => 2 * a + (c.toNat - 48)) acc =
        (nibbles bytes).foldl (fun a v => 2 * a + v / 8) acc := by
  induction bytes with
  | nil => intro acc; rfl
  | cons b bs ih =>
    intro acc
    have hb0 : b < 256 := hb b (List.mem_cons_self b bs)
    have hbs : ∀ x ∈ bs, x < 256 := fun x hx => hb x (List.mem_cons_of_mem _ hx)
    rw [hexChars_cons, nibbles_cons]
    simp only [List.map_cons, List.foldl_cons]
    rw [hexVal_topBit (b / 16) (by omega), hexVal_topBit (b % 16) (by omega)]
    exact ih hbs _

/-- Every nibble of a byte sequence is below 16. -/
theorem nibbles_lt (bytes : List Nat) (hb : ∀ b ∈ bytes, b < 256) :
    ∀ v ∈ nibbles bytes, v < 16 := by
  induction bytes with
  | nil => intro v hv; cases hv
  | cons b bs ih =>
    intro v hv
    rw [nibbles_cons] at hv
    have hb0 : b < 256 := hb b (List.mem_cons_self b bs)
    rcases List.mem_cons.mp hv with rfl | hv2
    · omega
    rcases List.mem_cons.mp hv2 with rfl | hv3
    · omega
    exact ih (fun x hx => hb x (List.mem_cons_of_mem _ hx)) v hv3

/-- There are two nibbles per byte. -/
theorem nibbles_length (bytes : List Nat) :
    (nibbles bytes).length = 2 * bytes.length := by
  induction bytes with
  | nil => rfl
  | cons b bs ih =>
    rw [nibbles_cons]
    simp only [List.length_cons, ih]
    omega

/-- The top-bit fold stays below `(acc + 1) * 2 ^ length` when every entry is a
nibble. -/
theorem topbits_fold_bound (l : List Nat) (hl : ∀ v ∈ l, v < 16) :
    ∀ acc : Nat,
      l.foldl (fun a v => 2 * a + v / 8) acc < (acc + 1) * 2 ^ l.length := by
  induction l with
  | nil => intro acc; simpa using Nat.lt_succ_self acc
  | cons v t ih =>
    intro acc
    have hv : v < 16 := hl v (List.mem_cons_self v t)
    have ht : ∀ x ∈ t, x < 16 := fun x hx => hl x (List.mem_cons_of_mem _ hx)
    simp only [List.foldl_cons, List.length_cons]
    calc t.foldl (fun a v => 2 * a + v / 8) (2 * acc + v / 8)
        < (2 * acc + v / 8 + 1) * 2 ^ t.length := ih ht _
      _ ≤ (acc + 1) * 2 ^ (t.length + 1) := by
          have : v / 8 ≤ 1 := by omega
          have h2 : 2 * acc + v / 8 + 1 ≤ 2 * (acc + 1) := by omega
          calc (2 * acc + v / 8 + 1) * 2 ^ t.length
              ≤ 2 * (acc + 1) * 2 ^ t.length :=
                Nat.mul_le_mul_right _ h2
            _ = (acc + 1) * 2 ^ (t.length + 1) := by ring

/-- C4: parsing the regex-transformed lowercase hex rendering of any 128-bit
digest as base 2 yields exactly the 32-bit integer whose binary digits are the
most-significant bits of the digest's 32 nibbles, most-significant nibble
first. -/
theorem threshold_transform_eq_nibble_top_bits (bytes : List Nat)
    (hlen : bytes.length = 16) (hb : ∀ b ∈ bytes, b < 256) :
    binToNat (((hexChars bytes).map sub07).map sub8f) = nibbleTopBits bytes ∧
      nibbleTopBits bytes < 2 ^ 32 := by
  constructor
  · exact transform_fold bytes hb 0
  · have h := topbits_fold_bound (nibbles bytes) (nibbles_lt bytes hb) 0
    rw [nibbles_length, hlen] at h
    simpa [nibbleTopBits] using h

/-- Witness for C4 at the digest of the empty message,
`d41d8cd98f00b204e9800998ecf8427e`. -/
theorem threshold_transform_eq_nibble_top_bits_witness :
    ((md5 []).length = 16 ∧ ∀ b ∈ md5 [], b < 256) ∧
      binToNat (((hexChars (md5 [])).map sub07).map sub8f) = nibbleTopBits (md5 []) ∧
        nibbleTopBits (md5 []) < 2 ^ 32 :=
  ⟨⟨by decide, by decide⟩,
    threshold_transform_eq_nibble_top_bits (md5 []) (by decide) (by decide)⟩

/-! ### C7: an invalid course-run key means "not enrolled" -/

/-- C7: when the course run's `key` does not parse (`CourseKey.from_string`
raises `InvalidKeyError`, modelled by the parser returning `none`),
`is_enrolled_in_course_run` returns `False` for every set of enrollment ids,
rather than propagating the error. -/
theorem invalid_key_not_enrolled {κ : Type} [BEq κ]
    (fromString : Option String → Option κ) (course_run : CourseRun)
    (enrollment_course_ids : List κ)
    (h : fromString course_run.key = none) :
    is_enrolled_in_course_run fromString course_run enrollment_course_ids
      = false := by
  unfold is_enrolled_in_course_run
  rw [h]

/-- Witness for C7: a parser that rejects every key, a run with an unparsable
key, and a non-empty enrollment set. -/
theorem invalid_key_not_enrolled_witness :
    (fun (_ : Option String) => (none : Option Nat))
        (CourseRun.mk (some "not-a-key") "published" []).key = none ∧
      is_enrolled_in_course_run (fun (_ : Option String) => (none : Option Nat))
        (CourseRun.mk (some "not-a-key") "published" []) [1, 2] = false :=
  ⟨rfl, invalid_key_not_enrolled _ _ _ rfl⟩

/-! ### C9: `is_enrolled_in_all_courses` agrees with `get_unenrolled_courses` -/

/-- C9: the user is enrolled in all courses exactly when the list of
unenrolled courses is empty, for every course list and enrollment set. -/
theorem enrolled_all_iff_no_unenrolled {κ : Type} [BEq κ]
    (fromString : Option String → Option κ) (courses : List Course)
    (user_enrollments : List (Enrollment κ)) :
    is_enrolled_in_all_courses fromString courses user_enrollments = true ↔
      get_unenrolled_courses fromString courses user_enrollments = [] := by
  unfold is_enrolled_in_all_courses get_unenrolled_courses
  simp

/-! ### C10: price and sku list of a program are `None` together -/

/-- Under the hypotheses of C10, every `(price, sku)` pair produced by
`get_course_entitlement_price_and_sku` has a non-negative price. -/
theorem contrib_nonneg (now : Nat) (course : Course)
    (he : ∀ e ∈ course.entitlements, 0 ≤ e.price)
    (hs : ∀ run ∈ course.course_runs.getD [], ∀ s ∈ run.seats, 0 ≤ s.price) :
    ∀ p sku, get_course_entitlement_price_and_sku now course = some (p, sku) →
      0 ≤ p := by
  intro p sku hp
  simp only [get_course_entitlement_price_and_sku] at hp
  split at hp
  · rename_i e heq
    simp only [Option.some.injEq, Prod.mk.injEq] at hp
    obtain ⟨rfl, rfl⟩ := hp
    exact he e (List.mem_of_find?_eq_some heq)
  · split at hp
    · rename_i seat heq2
      simp only [Option.some.injEq, Prod.mk.injEq] at hp
      obtain ⟨rfl, rfl⟩ := hp
      have hmem := List.mem_of_find?_eq_some heq2
      rw [List.mem_flatten] at hmem
      obtain ⟨l, hl, hseat⟩ := hmem
      rw [List.mem_map] at hl
      obtain ⟨run, hrun, rfl⟩ := hl
      exact hs run (List.mem_filter.mp hrun).1 seat hseat
    · exact absurd hp (by simp)

/-- When the helper yields a `(price, sku)` pair, `contribPrice` is that
price. -/
theorem contribPrice_eq (now : Nat) (course : Course) (p : Rat) (sku : String)
    (hc : get_course_entitlement_price_and_sku now course = some (p, sku)) :
    contribPrice now course = p := by
  unfold contribPrice
  rw [hc]

/-- A positive `contribPrice` comes from an actual `(price, sku)` pair with a
positive price. -/
theorem contribPrice_pos (now : Nat) (course : Course)
    (h : 0 < contribPrice now course) :
    ∃ p sku, get_course_entitlement_price_and_sku now course = some (p, sku) ∧
      0 < p := by
  cases hc : get_course_entitlement_price_and_sku now course with
  | some pr =>
    obtain ⟨p, sku⟩ := pr
    refine ⟨p, sku, rfl, ?_⟩
    rwa [contribPrice_eq now course p sku hc] at h
  | none =>
    have h0 : contribPrice now course = 0 := by
      unfold contribPrice
      rw [hc]
    rw [h0] at h
    exact absurd h (by norm_num)

/-- The running total after folding `priceStep` is the initial total plus the
sum of the per-course contributed prices. -/
theorem fold_price_eq (now : Nat) (courses : List Course) :
    ∀ acc : Rat × List String,
      (courses.foldl (priceStep now) acc).1 =
        acc.1 + (courses.map (contribPrice now)).sum := by
  induction courses with
  | nil => intro acc; simp
  | cons c cs ih =>
    intro acc
    simp only [List.foldl_cons, List.map_cons, List.sum_cons]
    rw [ih]
    unfold priceStep contribPrice
    cases hc : get_course_entitlement_price_and_sku now c with
    | some pr =>
      obtain ⟨p, sku⟩ := pr
      simp only [hc]
      ring
    | none =>
      simp only [hc]
      ring

/-- Folding `priceStep` preserves "a positive total comes with a non-empty sku
list": whenever the fold's total is positive, its sku list is non-empty. -/
theorem fold_pos_skus (now : Nat) (courses : List Course) :
    ∀ acc : Rat × List String, (0 < acc.1 → acc.2 ≠ []) →
      0 < (courses.foldl (priceStep now) acc).1 →
        (courses.foldl (priceStep now) acc).2 ≠ [] := by
  induction courses with
  | nil => intro acc hacc; exact hacc
  | cons c cs ih =>
    intro acc hacc
    simp only [List.foldl_cons]
    apply ih
    unfold priceStep
    cases hc : get_course_entitlement_price_and_sku now c with
    | some pr =>
      obtain ⟨p, sku⟩ := pr
      simp only [hc]
      intro _
      simp
    | none =>
      simp only [hc]
      exact hacc

/-- A sum of non-negative rationals is non-positive exactly when every term is
non-positive. -/
theorem rat_sum_nonpos (l : List Rat) (h : ∀ x ∈ l, 0 ≤ x) :
    l.sum ≤ 0 ↔ ∀ x ∈ l, x ≤ 0 := by
  induction l with
  | nil => simp
  | cons a t ih =>
    have ha := h a (List.mem_cons_self a t)
    have ht : ∀ x ∈ t, 0 ≤ x := fun x hx => h x (List.mem_cons_of_mem _ hx)
    have hts : 0 ≤ t.sum := List.sum_nonneg ht
    simp only [List.sum_cons, List.mem_cons]
    constructor
    · intro h0 x hx
      rcases hx with rfl | hx'
      · linarith
      · exact (ih ht).mp (by linarith) x hx'
    · intro hall
      have h1 : a ≤ 0 := hall a (Or.inl rfl)
      have h2 : t.sum ≤ 0 := (ih ht).mpr (fun x hx => hall x (Or.inr hx))
      linarith

/-- C10: when all entitlement and seat prices are non-negative,
`get_program_price_and_skus` returns `(None, None)` exactly when no course
contributes a positive price together with a sku; otherwise it returns a
formatted price together with a non-empty sku list — never a mixed pair. -/
theorem program_price_skus_consistent (format : Rat → String) (now : Nat)
    (courses : List Course)
    (hpr : ∀ c ∈ courses, (∀ e ∈ c.entitlements, 0 ≤ e.price) ∧
      (∀ run ∈ c.course_runs.getD [], ∀ s ∈ run.seats, 0 ≤ s.price)) :
    (get_program_price_and_skus format now courses = (none, none) ↔
      ∀ c ∈ courses, ∀ p sku,
        get_course_entitlement_price_and_sku now c = some (p, sku) → p ≤ 0) ∧
    (get_program_price_and_skus format now courses = (none, none) ∨
      ∃ str skus, get_program_price_and_skus format now courses =
        (some str, some skus) ∧ skus ≠ []) := by
  have hnn : ∀ x ∈ courses.map (contribPrice now), 0 ≤ x := by
    intro x hx
    rw [List.mem_map] at hx
    obtain ⟨c, hc, rfl⟩ := hx
    unfold contribPrice
    cases hcc : get_course_entitlement_price_and_sku now c with
    | some pr =>
      obtain ⟨p, sku⟩ := pr
      exact contrib_nonneg now c (hpr c hc).1 (hpr c hc).2 p sku hcc
    | none => exact le_refl 0
  have hfst : (courses.foldl (priceStep now) ((0 : Rat), ([] : List String))).1 =
      (courses.map (contribPrice now)).sum := by
    simpa using fold_price_eq now courses ((0 : Rat), ([] : List String))
  simp only [get_program_price_and_skus]
  by_cases hle : (courses.foldl (priceStep now) ((0 : Rat), ([] : List String))).1 ≤ 0
  · rw [if_pos hle]
    refine ⟨⟨fun _ c hc p sku hcp => ?_, fun _ => rfl⟩, Or.inl rfl⟩
    have hsum : (courses.map (contribPrice now)).sum ≤ 0 := hfst ▸ hle
    have := (rat_sum_nonpos _ hnn).mp hsum (contribPrice now c)
      (List.mem_map_of_mem _ hc)
    rwa [contribPrice_eq now c p sku hcp] at this
  · rw [if_neg hle]
    constructor
    · constructor
      · intro habs
        exact absurd habs (by simp)
      · intro hall
        exfalso
        apply hle
        rw [hfst]
        have hsum : (courses.map (contribPrice now)).sum ≤ 0 := by
          rw [rat_sum_nonpos _ hnn]
          intro x hx
          rw [List.mem_map] at hx
          obtain ⟨c, hc, rfl⟩ := hx
          by_contra hpos
          push_neg at hpos
          obtain ⟨p, sku, hcp, hp⟩ := contribPrice_pos now c hpos
          exact absurd (hall c hc p sku hcp) (by linarith)
        exact hsum
    · right
      refine ⟨_, _, rfl, ?_⟩
      exact fold_pos_skus now courses ((0 : Rat), ([] : List String))
        (fun h0 => absurd h0 (by norm_num)) (lt_of_not_le hle)

/-- Witness for C10: a single course with one verified, in-date, priced
entitlement. -/
theorem program_price_skus_consistent_witness :
    (∀ c ∈ [Course.mk [Entitlement.mk (some "verified") 5 "SKU1" none] none],
      (∀ e ∈ c.entitlements, 0 ≤ e.price) ∧
      (∀ run ∈ c.course_runs.getD [], ∀ s ∈ run.seats, 0 ≤ s.price)) ∧
    ((get_program_price_and_skus (fun _ => "$5") 0
        [Course.mk [Entitlement.mk (some "verified") 5 "SKU1" none] none] =
          (none, none) ↔
      ∀ c ∈ [Course.mk [Entitlement.mk (some "verified") 5 "SKU1" none] none],
        ∀ p sku, get_course_entitlement_price_and_sku 0 c = some (p, sku) →
          p ≤ 0) ∧
    (get_program_price_and_skus (fun _ => "$5") 0
        [Course.mk [Entitlement.mk (some "verified") 5 "SKU1" none] none] =
          (none, none) ∨
      ∃ str skus, get_program_price_and_skus (fun _ => "$5") 0
          [Course.mk [Entitlement.mk (some "verified") 5 "SKU1" none] none] =
            (some str, some skus) ∧ skus ≠ [])) :=
  ⟨by decide,
    program_price_skus_consistent (fun _ => "$5") 0
      [Course.mk [Entitlement.mk (some "verified") 5 "SKU1" none] none]
      (by decide)⟩

end Experiments
